import Mathlib

/-!
Verification of the OllamaDev agent core against its specification.

The Python source (agent.py, analyzer.py, editor.py) is shallowly embedded:
file-system state is an explicit association list from absolute-path
components to entries, the Ollama LLM and the project summary are oracle
parameters, and every operation is a pure Lean function translated from the
corresponding Python function.  Leading underscores of Python method names
are dropped (Lean identifiers should not start with an underscore), e.g.
`_execute_modify` becomes `execute_modify`.
-/

namespace OllamaDev

/-! ## String helpers (models of the Python `str` operations used) -/

/-- Model of Python `str.startswith`: character-list prefix test. -/
def charsStartWith : List Char → List Char → Bool
  | _, [] => true
  | [], _ :: _ => false
  | c :: cs, d :: ds => c = d && charsStartWith cs ds

/-- Model of Python `s.startswith(p)`. -/
def startsWithStr (s p : String) : Bool := charsStartWith s.data p.data

/-- Model of Python `str.upper` (ASCII as used by the source). -/
def upperStr (s : String) : String := String.mk (s.data.map Char.toUpper)

/-- Model of Python `str.lower` (ASCII as used by the source). -/
def lowerStr (s : String) : String := String.mk (s.data.map Char.toLower)

/-- Accumulating splitter for `/`-separated path strings. -/
def splitSlashAux (acc : List Char) : List Char → List String
  | [] => [String.mk acc.reverse]
  | c :: rest =>
    if c = '/' then String.mk acc.reverse :: splitSlashAux [] rest
    else splitSlashAux (c :: acc) rest

/-- Components of a path string, as `pathlib.Path` keeps them: split on `/`
and drop empty components. -/
def parseComponents (s : String) : List String :=
  (splitSlashAux [] s.data).filter (fun c => c ≠ "")

/-- Model of Python `sep.join(list)`. -/
def joinWith (sep : String) : List String → String
  | [] => ""
  | [x] => x
  | x :: y :: xs => x ++ sep ++ joinWith sep (y :: xs)

/-- Concatenation of a list of strings. -/
def joinStrings : List String → String
  | [] => ""
  | s :: rest => s ++ joinStrings rest

/-- Accumulating splitter for `splitlines(keepends=True)`: each produced
line keeps its terminating newline. -/
def splitCharsAux (acc : List Char) : List Char → List (List Char)
  | [] => if acc.isEmpty then [] else [acc.reverse]
  | c :: rest =>
    if c = '\n' then (acc.reverse ++ ['\n']) :: splitCharsAux [] rest
    else splitCharsAux (c :: acc) rest

/-- Model of Python `str.splitlines(True)` restricted to `\n` line ends
(the only line terminator produced and consumed by the source). -/
def splitLinesKeep (s : String) : List String :=
  (splitCharsAux [] s.data).map String.mk

/-- Index of the last `.` in a character list, if any. -/
def lastDotIdx : List Char → Option Nat
  | [] => none
  | c :: cs =>
    match lastDotIdx cs with
    | some i => some (i + 1)
    | none => if c = '.' then some (0 : Nat) else none

/-- Model of `pathlib.Path.suffix` on a file name: the final dot-extension,
empty for names with no dot, a leading dot only, or a trailing dot. -/
def fileSuffix (name : String) : String :=
  match lastDotIdx name.data with
  | none => ""
  | some i =>
    if 0 < i ∧ i < name.data.length - 1 then String.mk (name.data.drop i) else ""

/-- A single-quote character as a string (used in the analyzer's missing-file
message). -/
def squote : String := String.singleton (Char.ofNat 39)

/-! ## Paths and the file-system model -/

/-- Absolute paths are lists of components; the project root is such a list. -/
abbrev FPath := List String

/-- Render components back to an absolute POSIX path string. -/
def pathToString (p : FPath) : String := "/" ++ joinWith "/" p

/-- `isUnder q p` holds when `q` is a (not necessarily proper) prefix of `p`:
the entry at `p` lies at or under `q`. -/
def isUnder : FPath → FPath → Bool
  | [], _ => true
  | _ :: _, [] => false
  | a :: as, b :: bs => a = b && isUnder as bs

/-- The proper, nonempty ancestors of a path: for `[a,b,c]` these are
`[a]` and `[a,b]` (the directories `mkdir(parents=True)` must provide). -/
def properAncestors : FPath → List FPath
  | [] => []
  | [_] => []
  | a :: b :: rest => [a] :: (properAncestors (b :: rest)).map (a :: ·)

/-- Model of `Path.__truediv__` composed with the agent's
`self.project_root / target`: an absolute target discards the root. -/
def resolve (root : FPath) (target : String) : FPath :=
  if startsWithStr target "/" then parseComponents target
  else root ++ parseComponents target

/-- A file-system entry: a regular file with its text content, or a directory. -/
inductive Entry where
  | file (content : String)
  | dir
deriving DecidableEq, Repr

/-- The file tree as a finite map from absolute-path components to entries. -/
abbrev FS := List (FPath × Entry)

/-- Lookup of a path in the file tree (first binding wins). -/
def findFS : FS → FPath → Option Entry
  | [], _ => none
  | (q, e) :: rest, p => if q = p then some e else findFS rest p

/-- Insert or replace the entry at a path (model of writing a file or
creating a directory node). -/
def writeFS : FS → FPath → Entry → FS
  | [], p, e => [(p, e)]
  | (q, e') :: rest, p, e =>
    if q = p then (p, e) :: rest else (q, e') :: writeFS rest p e

/-- Remove every binding at exactly this path (model of `os.remove`). -/
def eraseFS (fs : FS) (p : FPath) : FS := fs.filter (fun b => b.1 ≠ p)

/-- Remove the path and everything beneath it (model of `shutil.rmtree`). -/
def rmtreeFS (fs : FS) (p : FPath) : FS := fs.filter (fun b => !(isUnder p b.1))

/-- Does a regular file sit at this path? -/
def isFileAt (fs : FS) (p : FPath) : Bool :=
  match findFS fs p with
  | some (.file _) => true
  | _ => false

/-- `mkdir(parents=True, exist_ok=True)` succeeds only when no existing
ancestor is a regular file (POSIX `mkdir` fails otherwise and the source's
`except` handler turns that into a `False` result). -/
def parentsOkFS (fs : FS) (p : FPath) : Bool :=
  (properAncestors p).all (fun q => !(isFileAt fs q))

/-- Add directory nodes for each listed path that is not present yet. -/
def addDirs (fs : FS) : List FPath → FS
  | [] => fs
  | q :: qs =>
    addDirs (if (findFS fs q).isSome then fs else fs ++ [(q, Entry.dir)]) qs

/-- Create all missing proper ancestors of `p` as directories. -/
def mkdirParentsFS (fs : FS) (p : FPath) : FS := addDirs fs (properAncestors p)

/-! ## Patch Engine (editor.py `_execute_modify` and its diff computation)

Modelled from the spec: the source delegates the line-level edit script to
`difflib.unified_diff` (a longest-common-subsequence matcher, context 3)
and patch application to the external `git apply --unidiff-zero
--ignore-whitespace` primitive (spec section 4.3 and the patch-apply
interface of section 6).  Neither is code of this repository, so they are
embedded by their specified behaviour: an LCS-based line edit script whose
application replays the proposed content, with the hunk headers and the
3-line context window being presentation only.  The transient `.tmp.patch`
file is written and removed on every exit path (source `finally:` block),
so its net effect on the tree is nothing and it is not modelled. -/

/-- One line-level edit operation of the computed script. -/
inductive LineOp where
  | keep (s : String)
  | del (s : String)
  | ins (s : String)
deriving DecidableEq, Repr

/-- Is this operation an unchanged-line (context) operation? -/
def LineOp.isKeep : LineOp → Bool
  | .keep _ => true
  | _ => false

/-- Fuelled length of a longest common subsequence of two line lists;
fuel `|a| + |b|` is enough for the recursion to finish the exploration. -/
def lcsLenF : Nat → List String → List String → Nat
  | 0, _, _ => 0
  | fuel + 1, as, bs =>
    match as, bs with
    | [], _ => 0
    | _, [] => 0
    | a :: as, b :: bs =>
      if a = b then lcsLenF fuel as bs + 1
      else max (lcsLenF fuel (a :: as) bs) (lcsLenF fuel as (b :: bs))

/-- Fuelled LCS-based edit script between two line lists.  At fuel `0`
(unreachable from `diffOps`) the script falls back to delete-all,
insert-all, which still replays correctly. -/
def diffOpsF : Nat → List String → List String → List LineOp
  | 0, as, bs => as.map .del ++ bs.map .ins
  | fuel + 1, as, bs =>
    match as, bs with
    | [], [] => []
    | [], b :: bs => .ins b :: diffOpsF fuel [] bs
    | a :: as, [] => .del a :: diffOpsF fuel as []
    | a :: as, b :: bs =>
      if a = b then .keep a :: diffOpsF fuel as bs
      else if lcsLenF fuel (a :: as) bs ≥ lcsLenF fuel as (b :: bs) then
        .ins b :: diffOpsF fuel (a :: as) bs
      else
        .del a :: diffOpsF fuel as (b :: bs)

/-- The line-level edit script between the original and the proposed lines. -/
def diffOps (as bs : List String) : List LineOp :=
  diffOpsF (as.length + bs.length) as bs

/-- Replay an edit script, producing the patched line sequence. -/
def applyOps : List LineOp → List String
  | [] => []
  | .keep s :: rest => s :: applyOps rest
  | .ins s :: rest => s :: applyOps rest
  | .del _ :: rest => applyOps rest

/-- Reconstruct the original line sequence from an edit script. -/
def origOps : List LineOp → List String
  | [] => []
  | .keep s :: rest => s :: origOps rest
  | .del s :: rest => s :: origOps rest
  | .ins _ :: rest => origOps rest

/-- Does the script contain a changed line?  `difflib.unified_diff` emits
text exactly when some hunk exists, i.e. when some opcode is not `equal`,
so the source's `if not diff_content.strip()` no-op test is this check. -/
def hasChanges (ops : List LineOp) : Bool := ops.any (fun op => !op.isKeep)

/-- Model of editor.py `_read_file_content`: the file's lines with kept
newlines, or `none` when the path is missing or is a directory (the
`IsADirectoryError` is caught and mapped to `None`). -/
def read_lines (fs : FS) (p : FPath) : Option (List String) :=
  match findFS fs p with
  | some (.file c) => some (splitLinesKeep c)
  | _ => none

/-- Model of editor.py `_execute_modify`: read the original, compute the
line diff against the proposed full content, succeed as a no-op when the
diff has no hunks, otherwise apply the patch in place. -/
def execute_modify (fs : FS) (p : FPath) (new_file_content : String) : Bool × FS :=
  match read_lines fs p with
  | none => (false, fs)
  | some original_lines =>
    let new_lines := splitLinesKeep new_file_content
    let ops := diffOps original_lines new_lines
    if hasChanges ops then
      (true, writeFS fs p (.file (joinStrings (applyOps ops))))
    else
      (true, fs)

/-- Model of editor.py `_execute_create`: refuse an existing target, else
create missing parent directories and write the content; a regular file
sitting on an ancestor makes the OS calls fail, which the source's
`except` handler maps to `False`. -/
def execute_create (fs : FS) (p : FPath) (content : String) : Bool × FS :=
  if (findFS fs p).isSome then (false, fs)
  else if parentsOkFS fs p then
    (true, writeFS (mkdirParentsFS fs p) p (.file content))
  else (false, fs)

/-- Model of editor.py `_execute_delete`: succeed as a no-op on a missing
path, fail on a directory, otherwise remove the file. -/
def execute_delete (fs : FS) (p : FPath) : Bool × FS :=
  match findFS fs p with
  | none => (true, fs)
  | some .dir => (false, fs)
  | some (.file _) => (true, eraseFS fs p)

/-- Model of editor.py `_execute_create_dir`: an existing directory is a
successful no-op; an existing regular file makes `mkdir` raise
(`exist_ok=True` only tolerates directories), mapped to `False`; else
create the directory and its missing ancestors. -/
def execute_create_dir (fs : FS) (p : FPath) : Bool × FS :=
  match findFS fs p with
  | some .dir => (true, fs)
  | some (.file _) => (false, fs)
  | none =>
    if parentsOkFS fs p then (true, writeFS (mkdirParentsFS fs p) p .dir)
    else (false, fs)

/-- Model of editor.py `_execute_delete_dir`: a missing path is a
successful no-op, a regular file is a failure, a directory is removed
recursively. -/
def execute_delete_dir (fs : FS) (p : FPath) : Bool × FS :=
  match findFS fs p with
  | none => (true, fs)
  | some (.file _) => (false, fs)
  | some .dir => (true, rmtreeFS fs p)

/-! ## Analyzer (analyzer.py) -/

/-- Lookup in an ordered string-keyed association list (first match wins,
the model of Python `dict.get` on our insertion-ordered maps). -/
def lookupStr : List (String × String) → String → Option String
  | [], _ => none
  | (k', v) :: rest, k => if k' = k then some v else lookupStr rest k

/-- The analyzer's extension-to-language table (`CodeAnalyzer.LANGUAGE_MAP`). -/
def LANGUAGE_MAP : List (String × String) :=
  [(".py", "python"), (".java", "java"), (".php", "php"),
   (".js", "javascript"), (".ts", "typescript"), (".html", "html"),
   (".css", "css"), (".md", "markdown"), (".json", "json"),
   (".kt", "kotlin"), (".cs", "C#"), (".sql", "T-SQL")]

/-- Model of `CodeAnalyzer._detect_language` on a path given by components:
the lower-cased suffix of the last component, looked up in the table,
defaulting to `"text"`. -/
def detect_language (p : FPath) : String :=
  (lookupStr LANGUAGE_MAP (lowerStr (fileSuffix (p.getLastD "")))).getD "text"

/-- Language detection applied to a raw path string, as
`get_multiple_context` does with `Path(path).suffix`. -/
def detectLanguageStr (s : String) : String := detect_language (parseComponents s)

/-- Model of `CodeAnalyzer._read_file_content`: the file's full text, or a
`FILE_ERROR`-prefixed message when the path is missing or unreadable (a
directory; other OS error texts are abstracted to the same prefix). -/
def read_file_content (root : FPath) (fs : FS) (relative_path : String) : String :=
  let full_path := resolve root relative_path
  match findFS fs full_path with
  | some (.file c) => c
  | none => "FILE_ERROR: File not found at " ++ pathToString full_path
  | some .dir =>
    "FILE_ERROR: Could not read file " ++ pathToString full_path ++
      ". Reason: IsADirectoryError"

/-- The dictionary returned by `CodeAnalyzer.get_context`. -/
structure ContextResult where
  language : String
  filepath : String
  content : String
  mode : String
deriving DecidableEq, Repr

/-- Model of `CodeAnalyzer.get_context` in the `mode='full'` branch, the
only mode the agent invokes (the `diff` branch calls the external git
collaborator and is outside the claims).  Note the missing-file message
carries the `ERROR:` prefix, not `FILE_ERROR`. -/
def get_context_full (root : FPath) (fs : FS) (relative_path : String) :
    ContextResult :=
  let full_path := resolve root relative_path
  if (findFS fs full_path).isSome then
    { language := detect_language full_path
      filepath := relative_path
      content := read_file_content root fs relative_path
      mode := "full" }
  else
    { language := "text"
      filepath := relative_path
      content := "ERROR: File " ++ squote ++ relative_path ++ squote ++
        " does not exist in the project."
      mode := "full" }

/-- The per-file delimiter line of `get_multiple_context`. -/
def fileDelim (path : String) : String :=
  "\n/* --- FILE: " ++ path ++ " (" ++
    upperStr ((lookupStr LANGUAGE_MAP (lowerStr (fileSuffix ((parseComponents path).getLastD "")))).getD "text")
    ++ ") --- */\n"

/-- The primary-language scan of `get_multiple_context`: the first path
present in the contents map whose detected language is not `"text"`. -/
def primaryLanguage : List String → List (String × String) → String
  | [], _ => "text"
  | p :: rest, contents =>
    if (lookupStr contents p).isSome then
      if detectLanguageStr p ≠ "text" then detectLanguageStr p
      else primaryLanguage rest contents
    else primaryLanguage rest contents

/-- The block-building loop of `get_multiple_context`: for each path, if a
content string is found and is truthy (non-empty), append the delimiter
and the content. -/
def buildBlocks : List String → List (String × String) → List String
  | [], _ => []
  | p :: rest, contents =>
    match lookupStr contents p with
    | some c =>
      if c ≠ "" then fileDelim p :: c :: buildBlocks rest contents
      else buildBlocks rest contents
    | none => buildBlocks rest contents

/-- Model of `CodeAnalyzer.get_multiple_context`: combine the stored files
into one fenced block tagged with the primary language. -/
def get_multiple_context (file_paths : List String)
    (file_contents : List (String × String)) : String :=
  if file_paths.isEmpty then ""
  else
    "```" ++ primaryLanguage file_paths file_contents ++ "\n" ++
      joinWith "\n" (buildBlocks file_paths file_contents) ++ "\n```"

/-! ## Agent (agent.py) -/

/-- One planned action step (`{action, target, description}`). -/
structure Step where
  action : String
  target : String
  description : String
deriving DecidableEq, Repr

/-- The agent's per-task mutable state (`CodeAgent.state`). -/
structure AgentState where
  context_files : List (String × String)
  target_language : String
  errors : List String
deriving DecidableEq, Repr

/-- The state installed by `CodeAgent.__init__`. -/
def initialAgentState : AgentState :=
  { context_files := [], target_language := "python", errors := [] }

/-- Insert-or-update for the insertion-ordered `context_files` map: an
existing key keeps its position, a new key is appended (Python dict
assignment semantics). -/
def upsert : List (String × String) → String → String → List (String × String)
  | [], k, v => [(k, v)]
  | (k', v') :: rest, k, v =>
    if k' = k then (k, v) :: rest else (k', v') :: upsert rest k v

/-- Model of `CodeAgent._execute_step`.  `llm_response` is the raw text the
Ollama client would return for the single `generate_content` call a step
can make (an external collaborator).  Returns the step's boolean result,
the updated agent state and the updated file tree. -/
def execute_step (root : FPath) (llm_response : String) (step : Step)
    (fs : FS) (st : AgentState) : Bool × AgentState × FS :=
  let action := upperStr step.action
  let target := step.target
  let full_path := resolve root target
  if action = "GET_CONTEXT" then
    let ctx := get_context_full root fs target
    if !(startsWithStr ctx.content "FILE_ERROR") then
      (true,
       { st with context_files := upsert st.context_files target ctx.content
                 target_language := ctx.language }, fs)
    else
      (false,
       { st with errors := st.errors ++ ["Failed to read file: " ++ target] },
       fs)
  else if action = "GENERATE_CODE" ∨ action = "MODIFY_CODE" then
    let full_context :=
      get_multiple_context (st.context_files.map Prod.fst) st.context_files
    if full_context = "" then (false, st, fs)
    else
      let raw_content := llm_response
      if startsWithStr raw_content "ERROR:" then
        (false,
         { st with errors :=
            st.errors ++ ["LLM failed to generate content for " ++ target] },
         fs)
      else
        let r :=
          if (findFS fs full_path).isSome then
            execute_modify fs full_path raw_content
          else
            execute_create fs full_path raw_content
        if r.1 then
          (true,
           { st with context_files := upsert st.context_files target raw_content },
           r.2)
        else (false, st, r.2)
  else if action = "CREATE_DIR" then
    let r := execute_create_dir fs full_path
    (r.1, st, r.2)
  else if action = "DELETE_DIR" then
    let r := execute_delete_dir fs full_path
    (r.1, st, r.2)
  else if action = "REPORT_SUCCESS" then
    (true, st, fs)
  else
    (false, { st with errors := st.errors ++ ["Unknown action: " ++ action] },
     fs)

/-- The Act loop of `CodeAgent.run_task` (source lines 181-188): execute
the plan in order, stopping at the first failing step.  `oracle i` is the
LLM response available to the step executed with 1-based index `i`.  The
last component counts the steps actually invoked. -/
def runPlan (root : FPath) (oracle : Nat → String) :
    Nat → FS → AgentState → List Step → Bool × AgentState × FS × Nat
  | _, fs, st, [] => (true, st, fs, 0)
  | i, fs, st, s :: rest =>
    let r := execute_step root (oracle i) s fs st
    if r.1 then
      let r2 := runPlan root oracle (i + 1) r.2.2 r.2.1 rest
      (r2.1, r2.2.1, r2.2.2.1, r2.2.2.2 + 1)
    else (false, r.2.1, r.2.2, 1)

/-- Model of `CodeAgent.run_task`.  The external observe and plan phases
are oracle inputs: `summary` is what `get_project_summary` returned and
`plan?` the decoded action plan (`none` for a JSON failure; the source's
`if not self.plan` also treats an empty list as a planning failure).
The reset at the top clears `errors` and `context_files` — and only
those two keys of the state dictionary. -/
def run_task (root : FPath) (summary : String) (plan? : Option (List Step))
    (oracle : Nat → String) (fs : FS) (st : AgentState) :
    Bool × AgentState × FS × Nat :=
  let st := { st with errors := [], context_files := [] }
  if startsWithStr summary "ERROR" then (false, st, fs, 0)
  else
    match plan? with
    | none => (false, st, fs, 0)
    | some [] => (false, st, fs, 0)
    | some plan => runPlan root oracle 1 fs st plan

/-! ## Properties of the line splitter -/

/-- Concatenation of character lists. -/
def flatChars : List (List Char) → List Char
  | [] => []
  | x :: xs => x ++ flatChars xs

theorem data_append (a b : String) : (a ++ b).data = a.data ++ b.data := rfl

theorem joinStrings_map_mk (ll : List (List Char)) :
    (joinStrings (ll.map String.mk)).data = flatChars ll := by
  induction ll with
  | nil => rfl
  | cons x xs ih => simp [joinStrings, flatChars, data_append, ih]

theorem flatChars_splitCharsAux (cs : List Char) :
    ∀ acc, flatChars (splitCharsAux acc cs) = acc.reverse ++ cs := by
  induction cs with
  | nil =>
    intro acc
    cases acc <;> simp [splitCharsAux, flatChars]
  | cons c rest ih =>
    intro acc
    by_cases hc : c = '\n'
    · subst hc
      simp [splitCharsAux, flatChars, ih []]
    · simp [splitCharsAux, hc, ih (c :: acc)]

/-- Joining the kept-newline lines of a string restores the string. -/
theorem joinStrings_splitLinesKeep (s : String) :
    joinStrings (splitLinesKeep s) = s := by
  apply String.ext
  rw [splitLinesKeep, joinStrings_map_mk, flatChars_splitCharsAux]
  rfl

/-- The kept-newline splitter is injective: line-identical means identical. -/
theorem splitLinesKeep_inj {a b : String}
    (h : splitLinesKeep a = splitLinesKeep b) : a = b := by
  have ha := joinStrings_splitLinesKeep a
  have hb := joinStrings_splitLinesKeep b
  rw [← ha, h, hb]

/-! ## Properties of the edit script -/

theorem origOps_append (l₁ l₂ : List LineOp) :
    origOps (l₁ ++ l₂) = origOps l₁ ++ origOps l₂ := by
  induction l₁ with
  | nil => rfl
  | cons op rest ih => cases op <;> simp [origOps, ih]

theorem applyOps_append (l₁ l₂ : List LineOp) :
    applyOps (l₁ ++ l₂) = applyOps l₁ ++ applyOps l₂ := by
  induction l₁ with
  | nil => rfl
  | cons op rest ih => cases op <;> simp [applyOps, ih]

theorem origOps_map_del (as : List String) : origOps (as.map .del) = as := by
  induction as with
  | nil => rfl
  | cons a rest ih => simp [origOps, ih]

theorem origOps_map_ins (bs : List String) : origOps (bs.map .ins) = [] := by
  induction bs with
  | nil => rfl
  | cons b rest ih => simp [origOps, ih]

theorem applyOps_map_del (as : List String) : applyOps (as.map .del) = [] := by
  induction as with
  | nil => rfl
  | cons a rest ih => simp [applyOps, ih]

theorem applyOps_map_ins (bs : List String) : applyOps (bs.map .ins) = bs := by
  induction bs with
  | nil => rfl
  | cons b rest ih => simp [applyOps, ih]

/-- The edit script reconstructs its original and replays to its target,
whatever the fuel. -/
theorem diff_replay (fuel : Nat) :
    ∀ as bs, origOps (diffOpsF fuel as bs) = as
      ∧ applyOps (diffOpsF fuel as bs) = bs := by
  induction fuel with
  | zero =>
    intro as bs
    simp [diffOpsF, origOps_append, applyOps_append, origOps_map_del,
      origOps_map_ins, applyOps_map_del, applyOps_map_ins]
  | succ fuel ih =>
    intro as bs
    match as, bs with
    | [], [] => simp [diffOpsF, origOps, applyOps]
    | [], b :: bs => simp [diffOpsF, origOps, applyOps, ih [] bs]
    | a :: as, [] => simp [diffOpsF, origOps, applyOps, ih as []]
    | a :: as, b :: bs =>
      by_cases hab : a = b
      · subst hab
        simp [diffOpsF, origOps, applyOps, ih as bs]
      · by_cases hl : lcsLenF fuel (a :: as) bs ≥ lcsLenF fuel as (b :: bs)
        · simp [diffOpsF, hab, hl, origOps, applyOps, ih (a :: as) bs]
        · simp [diffOpsF, hab, hl, origOps, applyOps, ih as (b :: bs)]

theorem hasChanges_cons (op : LineOp) (rest : List LineOp) :
    hasChanges (op :: rest) = (!op.isKeep || hasChanges rest) := rfl

/-- A script with no changed line replays to its own original. -/
theorem applyOps_of_no_changes {ops : List LineOp}
    (h : hasChanges ops = false) : applyOps ops = origOps ops := by
  induction ops with
  | nil => rfl
  | cons op rest ih =>
    rw [hasChanges_cons] at h
    cases op with
    | keep s =>
      simp only [LineOp.isKeep, Bool.not_true, Bool.false_or] at h
      simp [applyOps, origOps, ih h]
    | del s => simp [LineOp.isKeep] at h
    | ins s => simp [LineOp.isKeep] at h

/-- With enough fuel, diffing a line list against itself yields only
context operations. -/
theorem diffOpsF_self (fuel : Nat) :
    ∀ as : List String, as.length ≤ fuel →
      diffOpsF fuel as as = as.map .keep := by
  induction fuel with
  | zero =>
    intro as h
    have : as = [] := List.eq_nil_of_length_eq_zero (Nat.le_zero.mp h)
    subst this
    rfl
  | succ fuel ih =>
    intro as h
    match as with
    | [] => rfl
    | a :: as =>
      simp only [diffOpsF, if_pos rfl]
      rw [ih as (Nat.le_of_succ_le_succ h)]
      simp

theorem hasChanges_map_keep (as : List String) :
    hasChanges (as.map .keep) = false := by
  induction as with
  | nil => rfl
  | cons a rest ih =>
    rw [List.map_cons, hasChanges_cons, ih]
    rfl

/-- The computed script has no hunks exactly when the two line sequences
are equal — the source's textually-identical no-op test. -/
theorem no_changes_iff (as bs : List String) :
    hasChanges (diffOps as bs) = false ↔ as = bs := by
  constructor
  · intro h
    have h1 := (diff_replay (as.length + bs.length) as bs).1
    have h2 := (diff_replay (as.length + bs.length) as bs).2
    rw [diffOps] at h
    rw [← h1, ← applyOps_of_no_changes h, h2]
  · intro h
    subst h
    rw [diffOps, diffOpsF_self (as.length + as.length) as (Nat.le_add_right _ _)]
    exact hasChanges_map_keep as

/-! ## Properties of the file-tree primitives -/

theorem findFS_writeFS_self (fs : FS) (p : FPath) (e : Entry) :
    findFS (writeFS fs p e) p = some e := by
  induction fs with
  | nil => simp [writeFS, findFS]
  | cons b rest ih =>
    obtain ⟨q, e'⟩ := b
    by_cases hq : q = p
    · simp [writeFS, hq, findFS]
    · simp [writeFS, hq, findFS, ih]

/-- C2.  For every existing readable file and every proposed replacement
text, `_execute_modify` succeeds; the file afterwards holds exactly the
proposed content; and when the proposed content is line-identical to the
current content no write is performed (the tree is untouched). -/
theorem modify_roundtrip (fs : FS) (p : FPath) (orig new : String)
    (h : findFS fs p = some (.file orig)) :
    (execute_modify fs p new).1 = true
    ∧ findFS (execute_modify fs p new).2 p = some (.file new)
    ∧ (new = orig → (execute_modify fs p new).2 = fs) := by
  have hread : read_lines fs p = some (splitLinesKeep orig) := by
    rw [read_lines, h]
  by_cases hc : hasChanges (diffOps (splitLinesKeep orig) (splitLinesKeep new)) = true
  · have hne : ¬ new = orig := by
      intro he
      subst he
      rw [(no_changes_iff _ _).mpr rfl] at hc
      exact Bool.false_ne_true hc
    have happly :
        applyOps (diffOps (splitLinesKeep orig) (splitLinesKeep new))
          = splitLinesKeep new :=
      (diff_replay _ _ _).2
    constructor
    · rw [execute_modify, hread]
      simp only [hc, if_true]
    constructor
    · rw [execute_modify, hread]
      simp only [hc, if_true]
      rw [findFS_writeFS_self, happly, joinStrings_splitLinesKeep]
    · intro he
      exact absurd he hne
  · have hc' : hasChanges (diffOps (splitLinesKeep orig) (splitLinesKeep new)) = false :=
      Bool.not_eq_true _ ▸ Bool.eq_false_iff.mpr hc
    have heq : orig = new :=
      splitLinesKeep_inj ((no_changes_iff _ _).mp hc')
    constructor
    · rw [execute_modify, hread]
      simp only [hc', Bool.false_eq_true, if_false]
    constructor
    · rw [execute_modify, hread]
      simp only [hc', Bool.false_eq_true, if_false]
      rw [h, heq]
    · intro _
      rw [execute_modify, hread]
      simp only [hc', Bool.false_eq_true, if_false]

/-- Witness for C2 at a concrete file: modifying `a.py` holding
`"x = 1\n"` with proposed content `"x = 2\n"` rewrites it, and the
hypothesis of `modify_roundtrip` is discharged by evaluation. -/
theorem modify_roundtrip_witness :
    (execute_modify [(["r", "a.py"], Entry.file "x = 1\n")] ["r", "a.py"] "x = 2\n").1 = true
    ∧ findFS (execute_modify [(["r", "a.py"], Entry.file "x = 1\n")] ["r", "a.py"] "x = 2\n").2
        ["r", "a.py"] = some (Entry.file "x = 2\n")
    ∧ ("x = 2\n" = "x = 1\n" →
        (execute_modify [(["r", "a.py"], Entry.file "x = 1\n")] ["r", "a.py"] "x = 2\n").2
          = [(["r", "a.py"], Entry.file "x = 1\n")]) :=
  modify_roundtrip [(["r", "a.py"], Entry.file "x = 1\n")] ["r", "a.py"]
    "x = 1\n" "x = 2\n" (by decide)

theorem findFS_append (xs ys : FS) (p : FPath) :
    findFS (xs ++ ys) p =
      match findFS xs p with
      | some e => some e
      | none => findFS ys p := by
  induction xs with
  | nil => simp [findFS]
  | cons b rest ih =>
    obtain ⟨q, e⟩ := b
    by_cases hq : q = p
    · simp [findFS, hq]
    · simp [findFS, hq, ih]

theorem findFS_append_isSome {xs : FS} {p : FPath}
    (h : (findFS xs p).isSome) (ys : FS) :
    (findFS (xs ++ ys) p).isSome := by
  rw [findFS_append]
  cases hx : findFS xs p with
  | none => rw [hx] at h; simp at h
  | some e => simp

theorem addDirs_mono (L : List FPath) :
    ∀ (fs : FS) (q : FPath), (findFS fs q).isSome →
      (findFS (addDirs fs L) q).isSome := by
  induction L with
  | nil => intro fs q h; exact h
  | cons q0 rest ih =>
    intro fs q h
    rw [addDirs]
    by_cases h0 : (findFS fs q0).isSome
    · rw [if_pos h0]; exact ih fs q h
    · rw [if_neg h0]; exact ih _ q (findFS_append_isSome h _)

theorem addDirs_mem (L : List FPath) :
    ∀ (fs : FS) (q : FPath), q ∈ L →
      (findFS (addDirs fs L) q).isSome := by
  induction L with
  | nil => intro fs q h; cases h
  | cons q0 rest ih =>
    intro fs q h
    rw [addDirs]
    rcases List.mem_cons.mp h with hq | hq
    · subst hq
      by_cases h0 : (findFS fs q).isSome
      · rw [if_pos h0]; exact addDirs_mono rest fs q h0
      · rw [if_neg h0]
        apply addDirs_mono rest
        rw [findFS_append]
        cases hx : findFS fs q with
        | some e => rw [hx] at h0; simp at h0
        | none => simp [findFS]
    · by_cases h0 : (findFS fs q0).isSome
      · rw [if_pos h0]; exact ih fs q hq
      · rw [if_neg h0]; exact ih _ q hq


theorem findFS_writeFS_other (fs : FS) {p q : FPath} (e : Entry)
    (hq : q ≠ p) : findFS (writeFS fs p e) q = findFS fs q := by
  have hpq : ¬ p = q := fun h => hq h.symm
  induction fs with
  | nil => simp only [writeFS, findFS, if_neg hpq]
  | cons b rest ih =>
    obtain ⟨q', e'⟩ := b
    by_cases hq' : q' = p
    · have hq'q : ¬ q' = q := fun h => hpq (hq' ▸ h)
      rw [writeFS, if_pos hq', findFS, findFS, if_neg hpq, if_neg hq'q]
    · rw [writeFS, if_neg hq', findFS, findFS, ih]

theorem writeFS_preserves_isSome (fs : FS) (p q : FPath) (e : Entry)
    (h : (findFS fs q).isSome) : (findFS (writeFS fs p e) q).isSome := by
  by_cases hq : q = p
  · subst hq; rw [findFS_writeFS_self]; simp
  · rw [findFS_writeFS_other fs e hq]; exact h

/-- C8 (amended).  The create-file primitive refuses an existing target
and leaves the tree untouched; on a missing target whose existing
ancestors are not regular files it creates all missing parent directories
and writes exactly the provided content. -/
theorem create_rules (fs : FS) (p : FPath) (c : String) :
    ((findFS fs p).isSome = true → execute_create fs p c = (false, fs))
    ∧ (findFS fs p = none → parentsOkFS fs p = true →
        (execute_create fs p c).1 = true
        ∧ findFS (execute_create fs p c).2 p = some (.file c)
        ∧ ∀ q ∈ properAncestors p,
            (findFS (execute_create fs p c).2 q).isSome = true) := by
  constructor
  · intro h
    rw [execute_create, if_pos h]
  · intro hnone hok
    have hns : ¬ (findFS fs p).isSome = true := by rw [hnone]; simp
    refine ⟨?_, ?_, ?_⟩
    · rw [execute_create, if_neg hns, if_pos hok]
    · rw [execute_create, if_neg hns, if_pos hok]
      exact findFS_writeFS_self _ _ _
    · intro q hq
      rw [execute_create, if_neg hns, if_pos hok]
      exact writeFS_preserves_isSome _ _ _ _
        (addDirs_mem (properAncestors p) fs q hq)

/-- Counterexample to C8 as stated: with `a` an existing regular file, the
target `a/b` does not exist, yet create fails and writes nothing, because
the parent directory cannot be created over the file `a`. -/
theorem create_counterexample :
    findFS [(["a"], Entry.file "z")] ["a", "b"] = none
    ∧ execute_create [(["a"], Entry.file "z")] ["a", "b"] "w"
        = (false, [(["a"], Entry.file "z")]) := by
  decide

/-- Witness for C8: an existing `r/a.py` is never overwritten, and a fresh
`r/sub/new.py` is created together with its missing parent `r/sub`. -/
theorem create_rules_witness :
    execute_create [(["r", "a.py"], Entry.file "old")] ["r", "a.py"] "new"
      = (false, [(["r", "a.py"], Entry.file "old")])
    ∧ ((execute_create [(["r"], Entry.dir)] ["r", "sub", "new.py"] "hi\n").1 = true
        ∧ findFS (execute_create [(["r"], Entry.dir)] ["r", "sub", "new.py"] "hi\n").2
            ["r", "sub", "new.py"] = some (.file "hi\n")
        ∧ ∀ q ∈ properAncestors ["r", "sub", "new.py"],
            (findFS (execute_create [(["r"], Entry.dir)] ["r", "sub", "new.py"] "hi\n").2
              q).isSome = true) :=
  ⟨(create_rules [(["r", "a.py"], Entry.file "old")] ["r", "a.py"] "new").1 (by decide),
   (create_rules [(["r"], Entry.dir)] ["r", "sub", "new.py"] "hi\n").2
     (by decide) (by decide)⟩

/-- C9.  Delete-file and delete-directory are idempotent: on a path that
does not exist each succeeds as a no-op, leaving the tree untouched. -/
theorem delete_idempotent (fs : FS) (p : FPath)
    (h : findFS fs p = none) :
    execute_delete fs p = (true, fs) ∧ execute_delete_dir fs p = (true, fs) := by
  rw [execute_delete, execute_delete_dir, h]
  exact ⟨rfl, rfl⟩

/-- Witness for C9 on a just-removed path: after deleting `x` once, both
primitives succeed as no-ops on the now-missing path. -/
theorem delete_idempotent_witness :
    execute_delete (execute_delete [(["x"], Entry.file "c")] ["x"]).2 ["x"]
      = (true, (execute_delete [(["x"], Entry.file "c")] ["x"]).2)
    ∧ execute_delete_dir (execute_delete [(["x"], Entry.file "c")] ["x"]).2 ["x"]
      = (true, (execute_delete [(["x"], Entry.file "c")] ["x"]).2) :=
  delete_idempotent (execute_delete [(["x"], Entry.file "c")] ["x"]).2 ["x"] (by decide)

/-! ## Properties of the dispatcher and the Act loop -/

/-- A step either succeeds or leaves the context store untouched: no
failing dispatch path removes or rewrites stored context entries. -/
theorem execute_step_success_or_context (root : FPath) (llm : String)
    (step : Step) (fs : FS) (st : AgentState) :
    (execute_step root llm step fs st).1 = true
    ∨ ((execute_step root llm step fs st).2.1).context_files = st.context_files := by
  simp only [execute_step]
  repeat' split
  all_goals first
    | exact Or.inl rfl
    | exact Or.inr rfl

/-- C5 (amended).  Every step resolves to a boolean without escaping
exceptions (the dispatcher is a total function), and a step appends at
most one error string — some failing paths append none. -/
theorem step_error_discipline (root : FPath) (llm : String) (step : Step)
    (fs : FS) (st : AgentState) :
    ((execute_step root llm step fs st).2.1).errors = st.errors
    ∨ ∃ e, ((execute_step root llm step fs st).2.1).errors = st.errors ++ [e] := by
  simp only [execute_step]
  repeat' split
  all_goals first
    | exact Or.inl rfl
    | exact Or.inr ⟨_, rfl⟩

/-- Counterexample to C5 as stated: a `GENERATE_CODE` step against an
empty context store fails while appending no error string at all, so a
failing step does not always append exactly one error. -/
theorem step_error_counterexample :
    (execute_step ["r"] "resp" ⟨"GENERATE_CODE", "out.py", "d"⟩ [] initialAgentState).1
      = false
    ∧ ((execute_step ["r"] "resp" ⟨"GENERATE_CODE", "out.py", "d"⟩ []
          initialAgentState).2.1).errors = [] := by
  decide

/-- C3.  If the steps before position `k` all succeed and the step at
position `k` fails, the Act loop's result is that failing step's result:
the remaining steps are never invoked (exactly `k` steps run, whatever
follows), the loop reports failure, and the context store is exactly the
one the successful prefix built. -/
theorem plan_fail_fast (root : FPath) (o : Nat → String) :
    ∀ (pre : List Step) (i : Nat) (fs : FS) (st : AgentState) (s : Step)
      (rest : List Step) (st₁ : AgentState) (fs₁ : FS) (st₂ : AgentState)
      (fs₂ : FS),
      runPlan root o i fs st pre = (true, st₁, fs₁, pre.length) →
      execute_step root (o (i + pre.length)) s fs₁ st₁ = (false, st₂, fs₂) →
      runPlan root o i fs st (pre ++ s :: rest)
        = (false, st₂, fs₂, pre.length + 1)
      ∧ st₂.context_files = st₁.context_files := by
  intro pre
  induction pre with
  | nil =>
    intro i fs st s rest st₁ fs₁ st₂ fs₂ hpre hfail
    simp only [runPlan, List.length_nil, Prod.mk.injEq, true_and] at hpre
    obtain ⟨hst, hfs, -⟩ := hpre
    subst hst
    subst hfs
    simp only [List.length_nil, Nat.add_zero] at hfail
    have hctx : st₂.context_files = st.context_files := by
      have halt := execute_step_success_or_context root (o i) s fs st
      rw [hfail] at halt
      rcases halt with h1 | h2
      · exact absurd h1 (by simp)
      · exact h2
    refine ⟨?_, hctx⟩
    show runPlan root o i fs st (s :: rest) = _
    simp only [runPlan, hfail, List.length_nil]
    rfl
  | cons p0 pre ih =>
    intro i fs st s rest st₁ fs₁ st₂ fs₂ hpre hfail
    simp only [runPlan] at hpre
    by_cases hok : (execute_step root (o i) p0 fs st).1 = true
    · rw [if_pos hok] at hpre
      rcases hR : runPlan root o (i + 1) (execute_step root (o i) p0 fs st).2.2
          (execute_step root (o i) p0 fs st).2.1 pre with ⟨b2, st2, fs2, n2⟩
      rw [hR] at hpre
      simp only [List.length_cons, Prod.mk.injEq] at hpre
      obtain ⟨hb2, hst2, hfs2, hn2⟩ := hpre
      have hn2' : n2 = pre.length := by omega
      subst hb2; subst hst2; subst hfs2; subst hn2'
      have hidx : i + (pre.length + 1) = (i + 1) + pre.length := by omega
      rw [List.length_cons, hidx] at hfail
      have hres := ih (i + 1) (execute_step root (o i) p0 fs st).2.2
        (execute_step root (o i) p0 fs st).2.1 s rest st2 fs2 st₂ fs₂ hR hfail
      refine ⟨?_, hres.2⟩
      show runPlan root o i fs st (p0 :: (pre ++ s :: rest)) = _
      simp only [runPlan, if_pos hok, hres.1, List.length_cons]
    · rw [if_neg hok] at hpre
      simp at hpre

/-- Witness for C3: a two-prefix plan whose second step (`GENERATE_CODE`
with an empty context store) fails; the third step is never run and the
loop stops with the state the prefix produced. -/
theorem plan_fail_fast_witness :
    runPlan ["r"] (fun _ => "x") 1 [] initialAgentState
        ([⟨"REPORT_SUCCESS", "", ""⟩] ++
          ⟨"GENERATE_CODE", "out.py", ""⟩ :: [⟨"REPORT_SUCCESS", "", ""⟩])
      = (false, initialAgentState, [], 2)
    ∧ initialAgentState.context_files = initialAgentState.context_files :=
  plan_fail_fast ["r"] (fun _ => "x") [⟨"REPORT_SUCCESS", "", ""⟩] 1 []
    initialAgentState ⟨"GENERATE_CODE", "out.py", ""⟩ [⟨"REPORT_SUCCESS", "", ""⟩]
    initialAgentState [] initialAgentState [] (by decide) (by decide)

/-- The action strings the dispatcher recognizes (after upper-casing). -/
def isKnownAction (a : String) : Prop :=
  a = "GET_CONTEXT" ∨ a = "GENERATE_CODE" ∨ a = "MODIFY_CODE"
    ∨ a = "CREATE_DIR" ∨ a = "DELETE_DIR" ∨ a = "REPORT_SUCCESS"

instance (a : String) : Decidable (isKnownAction a) := by
  unfold isKnownAction
  infer_instance

/-- C4 (amended).  A step with an unrecognized action records exactly the
error string `Unknown action: X` and reports failure; the Act loop then
aborts like on any other failure — the remaining steps are not executed
(only this one step runs), the uniform fail-fast policy applying. -/
theorem unknown_action_fails_and_aborts (root : FPath) (o : Nat → String)
    (i : Nat) (fs : FS) (st : AgentState) (a t d : String) (rest : List Step)
    (h : ¬ isKnownAction (upperStr a)) :
    execute_step root (o i) ⟨a, t, d⟩ fs st
      = (false,
         { st with errors := st.errors ++ ["Unknown action: " ++ upperStr a] },
         fs)
    ∧ runPlan root o i fs st (⟨a, t, d⟩ :: rest)
      = (false,
         { st with errors := st.errors ++ ["Unknown action: " ++ upperStr a] },
         fs, 1) := by
  unfold isKnownAction at h
  push_neg at h
  obtain ⟨h1, h2, h3, h4, h5, h6⟩ := h
  have hstep : execute_step root (o i) ⟨a, t, d⟩ fs st
      = (false,
         { st with errors := st.errors ++ ["Unknown action: " ++ upperStr a] },
         fs) := by
    simp only [execute_step]
    rw [if_neg h1, if_neg ?hOr, if_neg h4, if_neg h5, if_neg h6]
    case hOr =>
      intro hor
      rcases hor with h' | h'
      · exact h2 h'
      · exact h3 h'
  refine ⟨hstep, ?_⟩
  simp only [runPlan, hstep]
  rfl

/-- Counterexample to C4 as stated: a plan whose first step has the
unknown action `FLY_TO_MOON` aborts after that single step — the
following `REPORT_SUCCESS` step is never invoked (one step executed, not
two), so the orchestrator does not continue past an unknown action. -/
theorem unknown_action_counterexample :
    runPlan ["r"] (fun _ => "") 1 [] initialAgentState
        [⟨"FLY_TO_MOON", "x", "d"⟩, ⟨"REPORT_SUCCESS", "", "d"⟩]
      = (false,
         { context_files := [], target_language := "python",
           errors := ["Unknown action: FLY_TO_MOON"] }, [], 1) := by
  decide

/-- Witness for C4: the unknown action `MAKE_COFFEE` fails its step and
stops the loop at once. -/
theorem unknown_action_witness :
    execute_step ["r"] ((fun _ => "") 1) ⟨"MAKE_COFFEE", "x", "d"⟩ [] initialAgentState
      = (false,
         { initialAgentState with errors :=
            initialAgentState.errors ++ ["Unknown action: " ++ upperStr "MAKE_COFFEE"] },
         [])
    ∧ runPlan ["r"] (fun _ => "") 1 [] initialAgentState
        (⟨"MAKE_COFFEE", "x", "d"⟩ :: [⟨"REPORT_SUCCESS", "", "d"⟩])
      = (false,
         { initialAgentState with errors :=
            initialAgentState.errors ++ ["Unknown action: " ++ upperStr "MAKE_COFFEE"] },
         [], 1) :=
  unknown_action_fails_and_aborts ["r"] (fun _ => "") 1 [] initialAgentState
    "MAKE_COFFEE" "x" "d" [⟨"REPORT_SUCCESS", "", "d"⟩] (by decide)

/-- C6 (amended).  A `run_task` invocation that reaches the Act phase
starts it from a state whose `context_files` and `errors` are freshly
empty, but whose `target_language` is carried over unchanged from the
previous state — the reset clears only those two keys, not the detected
language. -/
theorem run_task_reset (root : FPath) (summary : String) (plan : List Step)
    (o : Nat → String) (fs : FS) (st₀ : AgentState)
    (hs : startsWithStr summary "ERROR" = false) (hp : plan ≠ []) :
    run_task root summary (some plan) o fs st₀
      = runPlan root o 1 fs
          { context_files := [], target_language := st₀.target_language,
            errors := [] } plan := by
  cases plan with
  | nil => exact absurd rfl hp
  | cons p rest =>
    have hcond : ¬ startsWithStr summary "ERROR" = true := by
      rw [hs]
      exact fun hfalse => Bool.noConfusion hfalse
    rw [run_task, if_neg hcond]
    exact fun h => List.noConfusion h

/-- Witness for C6: starting from a dirty state with language `java`, the
Act phase begins with empty context and errors but still language `java`. -/
theorem run_task_reset_witness :
    run_task ["r"] "files" (some [⟨"REPORT_SUCCESS", "", ""⟩]) (fun _ => "") []
        { context_files := [("old.py", "x")], target_language := "java",
          errors := ["junk"] }
      = runPlan ["r"] (fun _ => "") 1 []
          { context_files := [],
            target_language :=
              (AgentState.mk [("old.py", "x")] "java" ["junk"]).target_language,
            errors := [] } [⟨"REPORT_SUCCESS", "", ""⟩] :=
  run_task_reset ["r"] "files" [⟨"REPORT_SUCCESS", "", ""⟩] (fun _ => "") []
    (AgentState.mk [("old.py", "x")] "java" ["junk"]) (by decide)
    (by intro h; cases h)

/-- Counterexample to C6 as stated: after a full task run started from a
state carrying language `java`, the detected language is still `java`,
not the initial default `python` — `run_task` does not reset the whole
state. -/
theorem run_task_language_counterexample :
    ((run_task ["r"] "files" (some [⟨"REPORT_SUCCESS", "", ""⟩]) (fun _ => "") []
        { context_files := [], target_language := "java",
          errors := [] }).2.1).target_language
      ≠ initialAgentState.target_language := by
  decide

/-- C1 fails on the code: for the plan `[GET_CONTEXT missing.py,
GENERATE_CODE out.py]` against a root without `missing.py`, the first
step is treated as a success — `get_context` reports the missing file
with the prefix `ERROR:` while the agent tests for `FILE_ERROR`, so the
analyzer's error message itself is stored as context — the second step
does run (two steps executed), the task succeeds, and the errors list
stays empty instead of `[Failed to read file: missing.py]`. -/
theorem missing_file_run :
    (run_task ["home", "proj"] "ok"
        (some [⟨"GET_CONTEXT", "missing.py", "read"⟩,
               ⟨"GENERATE_CODE", "out.py", "write"⟩])
        (fun _ => "print(1)\n")
        [(["home"], Entry.dir), (["home", "proj"], Entry.dir)]
        initialAgentState).1 = true
    ∧ ((run_task ["home", "proj"] "ok"
        (some [⟨"GET_CONTEXT", "missing.py", "read"⟩,
               ⟨"GENERATE_CODE", "out.py", "write"⟩])
        (fun _ => "print(1)\n")
        [(["home"], Entry.dir), (["home", "proj"], Entry.dir)]
        initialAgentState).2.1).errors = []
    ∧ (run_task ["home", "proj"] "ok"
        (some [⟨"GET_CONTEXT", "missing.py", "read"⟩,
               ⟨"GENERATE_CODE", "out.py", "write"⟩])
        (fun _ => "print(1)\n")
        [(["home"], Entry.dir), (["home", "proj"], Entry.dir)]
        initialAgentState).2.2.2 = 2
    ∧ lookupStr ((run_task ["home", "proj"] "ok"
        (some [⟨"GET_CONTEXT", "missing.py", "read"⟩,
               ⟨"GENERATE_CODE", "out.py", "write"⟩])
        (fun _ => "print(1)\n")
        [(["home"], Entry.dir), (["home", "proj"], Entry.dir)]
        initialAgentState).2.1).context_files "missing.py"
      = some ("ERROR: File " ++ squote ++ "missing.py" ++ squote ++
          " does not exist in the project.") := by
  decide

/-- C10.  An absolute `GET_CONTEXT` target discards the project root on
joining, so the step reads the file at that absolute path even when it
lies outside the root, and (the read passing the agent's sentinel test)
stores the outside content in the context store — nothing checks that the
resolved target is under the project root. -/
theorem absolute_target_escapes_root (root : FPath) (t d llm c : String)
    (fs : FS) (st : AgentState)
    (habs : startsWithStr t "/" = true)
    (hout : isUnder root (parseComponents t) = false)
    (hfile : findFS fs (parseComponents t) = some (.file c))
    (hc : startsWithStr c "FILE_ERROR" = false) :
    resolve root t = parseComponents t
    ∧ execute_step root llm ⟨"GET_CONTEXT", t, d⟩ fs st
      = (true,
         { st with context_files := upsert st.context_files t c,
                   target_language := detect_language (parseComponents t) },
         fs) := by
  have hres : resolve root t = parseComponents t := by
    rw [resolve, if_pos habs]
  have hread : read_file_content root fs t = c := by
    rw [read_file_content, hres, hfile]
  have hsome : (findFS fs (resolve root t)).isSome = true := by
    rw [hres, hfile]
    rfl
  have hsome' : (findFS fs (parseComponents t)).isSome = true := by
    rw [hfile]
    rfl
  have hctx : get_context_full root fs t
      = ⟨detect_language (parseComponents t), t, c, "full"⟩ := by
    simp only [get_context_full, hres, hread, if_pos hsome']
  refine ⟨hres, ?_⟩
  simp only [execute_step, hctx]
  rw [if_pos (show upperStr "GET_CONTEXT" = "GET_CONTEXT" by decide)]
  rw [if_pos (show (!(startsWithStr c "FILE_ERROR")) = true by rw [hc]; rfl)]

/-- Witness for C10: with root `/home/proj`, the target `/etc/passwd`
resolves to `/etc/passwd` itself and its content is read and stored. -/
theorem absolute_target_escapes_root_witness :
    resolve ["home", "proj"] "/etc/passwd" = parseComponents "/etc/passwd"
    ∧ execute_step ["home", "proj"] "" ⟨"GET_CONTEXT", "/etc/passwd", "d"⟩
        [(["etc"], Entry.dir), (["etc", "passwd"], Entry.file "top secret\n")]
        initialAgentState
      = (true,
         { initialAgentState with
            context_files :=
              upsert initialAgentState.context_files "/etc/passwd" "top secret\n",
            target_language := detect_language (parseComponents "/etc/passwd") },
         [(["etc"], Entry.dir), (["etc", "passwd"], Entry.file "top secret\n")]) :=
  absolute_target_escapes_root ["home", "proj"] "/etc/passwd" "d" ""
    "top secret\n"
    [(["etc"], Entry.dir), (["etc", "passwd"], Entry.file "top secret\n")]
    initialAgentState (by decide) (by decide) (by decide) (by decide)

/-! ## Context aggregation against its specification (C7) -/

/-- Modelled from the spec (section 4.5): the primary language is the
first non-default language detected among the stored files. -/
def specPrimary : List (String × String) → String
  | [] => "text"
  | (p, _) :: rest =>
    if detectLanguageStr p ≠ "text" then detectLanguageStr p
    else specPrimary rest

/-- Modelled from the spec (section 4.5): every stored `(path, content)`
pair, in insertion order, each preceded by its path-labelled delimiter. -/
def specBlocksAll : List (String × String) → List String
  | [] => []
  | (p, c) :: rest => fileDelim p :: c :: specBlocksAll rest

/-- The amended block list: pairs whose stored content is empty are
omitted (the source's Python truthiness test skips them). -/
def specBlocks : List (String × String) → List String
  | [] => []
  | (p, c) :: rest =>
    if c ≠ "" then fileDelim p :: c :: specBlocks rest
    else specBlocks rest

/-- Modelled from the spec (section 4.5), literally: one fenced block
holding every stored pair. -/
def specAggregateAll (store : List (String × String)) : String :=
  if store.isEmpty then ""
  else
    "```" ++ specPrimary store ++ "\n" ++
      joinWith "\n" (specBlocksAll store) ++ "\n```"

/-- The amended aggregation: as the spec says, but pairs with empty
content are omitted from the block. -/
def specAggregate (store : List (String × String)) : String :=
  if store.isEmpty then ""
  else
    "```" ++ specPrimary store ++ "\n" ++
      joinWith "\n" (specBlocks store) ++ "\n```"

/-- Counterexample to C7 as stated: a context store holding `a.py` with
empty content produces a block that omits the pair entirely, differing
from the spec's every-pair aggregation. -/
theorem aggregation_counterexample :
    get_multiple_context ["a.py"] [("a.py", "")]
      ≠ specAggregateAll [("a.py", "")] := by
  decide

theorem lookupStr_head (p : String) (c : String)
    (rest : List (String × String)) :
    lookupStr ((p, c) :: rest) p = some c := by
  rw [lookupStr, if_pos rfl]

theorem lookupStr_skip (p q : String) (c : String)
    (rest : List (String × String)) (h : ¬ p = q) :
    lookupStr ((p, c) :: rest) q = lookupStr rest q := by
  rw [lookupStr, if_neg h]

theorem primaryLanguage_skip (keys : List String) (p : String) (c : String)
    (rest : List (String × String)) (h : p ∉ keys) :
    primaryLanguage keys ((p, c) :: rest) = primaryLanguage keys rest := by
  induction keys with
  | nil => rfl
  | cons q qs ih =>
    have hqs : p ∉ qs := fun hm => h (List.mem_cons_of_mem q hm)
    have hpq : ¬ p = q := fun he => h (he ▸ List.mem_cons_self q qs)
    rw [primaryLanguage, primaryLanguage, lookupStr_skip p q c rest hpq, ih hqs]

theorem buildBlocks_skip (keys : List String) (p : String) (c : String)
    (rest : List (String × String)) (h : p ∉ keys) :
    buildBlocks keys ((p, c) :: rest) = buildBlocks keys rest := by
  induction keys with
  | nil => rfl
  | cons q qs ih =>
    have hqs : p ∉ qs := fun hm => h (List.mem_cons_of_mem q hm)
    have hpq : ¬ p = q := fun he => h (he ▸ List.mem_cons_self q qs)
    rw [buildBlocks, buildBlocks, lookupStr_skip p q c rest hpq, ih hqs]

theorem primaryLanguage_eq_specPrimary (store : List (String × String))
    (h : (store.map Prod.fst).Nodup) :
    primaryLanguage (store.map Prod.fst) store = specPrimary store := by
  induction store with
  | nil => rfl
  | cons pc rest ih =>
    obtain ⟨p, c⟩ := pc
    simp only [List.map_cons, List.nodup_cons] at h
    obtain ⟨hnot, hrest⟩ := h
    simp only [List.map_cons]
    rw [primaryLanguage, specPrimary, lookupStr_head]
    simp only [Option.isSome_some, if_true]
    by_cases hl : detectLanguageStr p ≠ "text"
    · rw [if_pos hl, if_pos hl]
    · rw [if_neg hl, if_neg hl, primaryLanguage_skip _ _ _ _ hnot, ih hrest]

theorem buildBlocks_eq_specBlocks (store : List (String × String))
    (h : (store.map Prod.fst).Nodup) :
    buildBlocks (store.map Prod.fst) store = specBlocks store := by
  induction store with
  | nil => rfl
  | cons pc rest ih =>
    obtain ⟨p, c⟩ := pc
    simp only [List.map_cons, List.nodup_cons] at h
    obtain ⟨hnot, hrest⟩ := h
    simp only [List.map_cons]
    rw [buildBlocks, specBlocks, lookupStr_head]
    dsimp only
    by_cases hc : c ≠ ""
    · rw [if_pos hc, if_pos hc, buildBlocks_skip _ _ _ _ hnot, ih hrest]
    · rw [if_neg hc, if_neg hc, buildBlocks_skip _ _ _ _ hnot, ih hrest]

/-- C7 (amended).  On a context store with distinct paths (as the agent
maintains), the aggregation equals the spec's description amended in one
point: pairs whose stored content is empty are omitted from the block,
while the order is insertion order and the fence is tagged with the first
non-default language among all stored files. -/
theorem aggregation_refines_spec (store : List (String × String))
    (h : (store.map Prod.fst).Nodup) :
    get_multiple_context (store.map Prod.fst) store = specAggregate store := by
  rw [get_multiple_context, specAggregate]
  cases store with
  | nil => rfl
  | cons pc rest =>
    have he1 : (List.map Prod.fst (pc :: rest)).isEmpty = false := by simp
    have he2 : (pc :: rest).isEmpty = false := rfl
    rw [he1, he2]
    simp only [Bool.false_eq_true, if_false]
    rw [primaryLanguage_eq_specPrimary _ h, buildBlocks_eq_specBlocks _ h]

/-- Witness for C7: a two-file store with distinct keys aggregates to the
spec's fenced block. -/
theorem aggregation_refines_spec_witness :
    get_multiple_context ([("a.py", "x = 1\n"), ("b.md", "hi\n")].map Prod.fst)
        [("a.py", "x = 1\n"), ("b.md", "hi\n")]
      = specAggregate [("a.py", "x = 1\n"), ("b.md", "hi\n")] :=
  aggregation_refines_spec [("a.py", "x = 1\n"), ("b.md", "hi\n")] (by decide)

end OllamaDev
